import Mathlib

/-!
Verification of the pixybattle repository's two core subsystems:

* the block/scene reconciliation logic of `src/python/utils/vision.py`
  (`GenericBlock`, `nearly_equal_pairs`, `merge_similar_blocks`, `Scene.diff`);
* the laser-firing controller of `src/python/utils/shooting.py`
  (`LaserController`, `LaserInterface`, `LaserProcess`).

Python numbers are modelled by exact rationals (`ℚ`); Python exceptions
(`ZeroDivisionError` from `intersection_ppn` when both areas vanish, `KeyError`
from `set.remove`, `AssertionError` from `merge_blocks`) are modelled by
`Option`-valued functions returning `none`.  Python `set`s of blocks are
modelled as duplicate-free lists (iteration order explicit) or `Finset`s where
the order provably does not matter.
-/

namespace Pixybattle

/-! ### Block data model (vision.py, `GenericBlock`) -/

/-- A detected rectangular object: `GenericBlock(signature, x, y, width, height)`. -/
structure GenericBlock where
  signature : ℤ
  x : ℚ
  y : ℚ
  width : ℚ
  height : ℚ
deriving DecidableEq, Repr

namespace GenericBlock

/-- Python property `xmax = x + width`. -/
def xmax (b : GenericBlock) : ℚ := b.x + b.width

/-- Python property `ymax = y + height`. -/
def ymax (b : GenericBlock) : ℚ := b.y + b.height

/-- Python property `area = width * height`. -/
def area (b : GenericBlock) : ℚ := b.width * b.height

/-- Python `x_overlap` with the default `check_sig=False`:
`max(0, min(self.xmax, other.xmax) - max(self.x, other.x))`. -/
def x_overlap (a b : GenericBlock) : ℚ := max 0 (min a.xmax b.xmax - max a.x b.x)

/-- Python `y_overlap` with the default `check_sig=False`. -/
def y_overlap (a b : GenericBlock) : ℚ := max 0 (min a.ymax b.ymax - max a.y b.y)

/-- Python `intersection_area` with the default `check_sig=False`. -/
def intersection_area (a b : GenericBlock) : ℚ := a.x_overlap b * a.y_overlap b

/-- Python `intersection_ppn`: `area / max(self.area, other.area)`; the division
raises `ZeroDivisionError` when `max(self.area, other.area) == 0`, modelled as
`none`. -/
def intersection_ppn (a b : GenericBlock) : Option ℚ :=
  if max a.area b.area = 0 then none
  else some (a.intersection_area b / max a.area b.area)

/-- Python `nearly_equals`:
`self.signature == other.signature and self.intersection_ppn(other) >= threshold`.
The conjunction short-circuits, so the possibly-raising `intersection_ppn` is
only evaluated when the signatures agree. -/
def nearly_equals (a b : GenericBlock) (threshold : ℚ) : Option Bool :=
  if a.signature = b.signature then
    (a.intersection_ppn b).map (fun p => decide (p ≥ threshold))
  else some false

end GenericBlock

/-- `SIMILARITY_THRESHOLD = 0.9` from vision.py. -/
def SIMILARITY_THRESHOLD : ℚ := 9 / 10

/-- Arithmetic mean of a list of rationals (`np.mean` over one axis). -/
def listMean (l : List ℚ) : ℚ := l.sum / l.length

/-- Python classmethod `GenericBlock.merge_blocks(*blocks)`: collects the
signatures into a set, asserts that exactly one signature is present
(`assert len(signatures) == 1`, modelled as `none` on failure, which also
covers the empty-input case), and returns a block with the mean
`x, y, width, height` and the common signature. -/
def merge_blocks (blocks : List GenericBlock) : Option GenericBlock :=
  if ((blocks.map (·.signature)).dedup).length = 1 then
    match blocks with
    | [] => none
    | b :: _ =>
      some ⟨b.signature,
            listMean (blocks.map (·.x)),
            listMean (blocks.map (·.y)),
            listMean (blocks.map (·.width)),
            listMean (blocks.map (·.height))⟩
  else none

/-! ### Claims C8 and C4 -/

/-- C8: for any two blocks with different signatures, `nearly_equals` returns
`False`, whatever the geometric overlap and whatever the threshold. -/
theorem nearly_equals_signature_gate (a b : GenericBlock) (threshold : ℚ)
    (h : a.signature ≠ b.signature) :
    a.nearly_equals b threshold = some false := by
  unfold GenericBlock.nearly_equals
  rw [if_neg h]

/-- Witness for C8 at concrete blocks with overlapping rectangles but different
signatures. -/
theorem nearly_equals_signature_gate_witness :
    (1 : ℤ) ≠ (2 : ℤ) ∧
      GenericBlock.nearly_equals ⟨1, 0, 0, 5, 5⟩ ⟨2, 0, 0, 5, 5⟩ (1 / 2) = some false :=
  ⟨by decide, nearly_equals_signature_gate ⟨1, 0, 0, 5, 5⟩ ⟨2, 0, 0, 5, 5⟩ (1 / 2) (by decide)⟩

theorem merge_blocks_uniform (blocks : List GenericBlock) (sig : ℤ)
    (hne : blocks ≠ []) (hall : ∀ b ∈ blocks, b.signature = sig) :
    merge_blocks blocks =
      some ⟨sig,
            listMean (blocks.map (·.x)),
            listMean (blocks.map (·.y)),
            listMean (blocks.map (·.width)),
            listMean (blocks.map (·.height))⟩ := by
  match blocks, hne with
  | b :: rest, _ =>
    have hmap : ((b :: rest).map (·.signature)) = List.replicate (rest.length + 1) sig := by
      rw [List.eq_replicate_iff]
      constructor
      · simp
      · intro s hs
        rcases List.mem_map.mp hs with ⟨blk, hblk, rfl⟩
        exact hall blk hblk
    have hded : ((b :: rest).map (·.signature)).dedup.length = 1 := by
      rw [hmap, List.replicate_dedup (Nat.succ_ne_zero rest.length)]
      rfl
    have hbsig : b.signature = sig := hall b (List.mem_cons_self b rest)
    unfold merge_blocks
    rw [if_pos hded]
    simp only [hbsig]

theorem merge_blocks_mismatch (blocks : List GenericBlock) (b c : GenericBlock)
    (hb : b ∈ blocks) (hc : c ∈ blocks) (hbc : b.signature ≠ c.signature) :
    merge_blocks blocks = none := by
  have hbm : b.signature ∈ (blocks.map (·.signature)).dedup :=
    List.mem_dedup.mpr (List.mem_map.mpr ⟨b, hb, rfl⟩)
  have hcm : c.signature ∈ (blocks.map (·.signature)).dedup :=
    List.mem_dedup.mpr (List.mem_map.mpr ⟨c, hc, rfl⟩)
  have hlen : ((blocks.map (·.signature)).dedup).length ≠ 1 := by
    intro h1
    rcases List.length_eq_one.mp h1 with ⟨s, hs⟩
    rw [hs, List.mem_singleton] at hbm hcm
    exact hbc (hbm.trans hcm.symm)
  unfold merge_blocks
  rw [if_neg hlen]

/-- C4: `merge_blocks` of a nonempty collection of blocks sharing one signature
returns the block whose fields are the arithmetic means of the inputs' fields,
with the shared signature; on mismatched signatures it fails (the assertion
fires) instead of returning a block. -/
theorem merge_blocks_spec :
    (∀ (blocks : List GenericBlock) (sig : ℤ),
        blocks ≠ [] → (∀ b ∈ blocks, b.signature = sig) →
        merge_blocks blocks =
          some ⟨sig,
                listMean (blocks.map (·.x)),
                listMean (blocks.map (·.y)),
                listMean (blocks.map (·.width)),
                listMean (blocks.map (·.height))⟩) ∧
    (∀ (blocks : List GenericBlock) (b c : GenericBlock),
        b ∈ blocks → c ∈ blocks → b.signature ≠ c.signature →
        merge_blocks blocks = none) :=
  ⟨merge_blocks_uniform, merge_blocks_mismatch⟩

/-- Witness for C4: a merge of two same-signature blocks yields the mean block,
and a merge with mismatched signatures fails. -/
theorem merge_blocks_spec_witness :
    (([⟨1, 0, 0, 2, 2⟩, ⟨1, 2, 4, 4, 6⟩] : List GenericBlock) ≠ [] ∧
      merge_blocks [⟨1, 0, 0, 2, 2⟩, ⟨1, 2, 4, 4, 6⟩] =
        some ⟨1, listMean [0, 2], listMean [0, 4], listMean [2, 4], listMean [2, 6]⟩) ∧
    merge_blocks [⟨1, 0, 0, 2, 2⟩, ⟨2, 2, 4, 4, 6⟩] = none :=
  ⟨⟨by decide,
    merge_blocks_spec.1 [⟨1, 0, 0, 2, 2⟩, ⟨1, 2, 4, 4, 6⟩] 1 (by decide) (by decide)⟩,
   merge_blocks_spec.2 [⟨1, 0, 0, 2, 2⟩, ⟨2, 2, 4, 4, 6⟩] ⟨1, 0, 0, 2, 2⟩ ⟨2, 2, 4, 4, 6⟩
     (by decide) (by decide) (by decide)⟩

/-! ### Pair finding (vision.py, `nearly_equal_pairs`) and `Scene.diff` -/

/-- Ordered pairs produced by `itertools.combinations(l, 2)`. -/
def combPairs {α : Type} : List α → List (α × α)
  | [] => []
  | x :: xs => (xs.map (fun y => (x, y))) ++ combPairs xs

/-- Ordered pairs produced by `itertools.product(l1, l2)`. -/
def prodPairs {α : Type} (l1 l2 : List α) : List (α × α) :=
  l1.flatMap (fun a => l2.map (fun b => (a, b)))

/-- The candidate pairs tested by `nearly_equal_pairs`: all unordered pairs
within `blocks_1` when `blocks_2` is `None`, else the cross product of the two
collections (`this_that` in the source). -/
def candidate_pairs (blocks_1 : List GenericBlock)
    (blocks_2 : Option (List GenericBlock)) : List (GenericBlock × GenericBlock) :=
  match blocks_2 with
  | none => combPairs blocks_1
  | some l2 => prodPairs blocks_1 l2

/-- The filtering loop of `nearly_equal_pairs`: keep the pairs for which
`this.nearly_equals(that, threshold)` is true; a `ZeroDivisionError` raised by
any test aborts the whole call (`none`). -/
def keepNearlyEqual (threshold : ℚ) :
    List (GenericBlock × GenericBlock) → Option (List (GenericBlock × GenericBlock))
  | [] => some []
  | p :: rest =>
    match p.1.nearly_equals p.2 threshold, keepNearlyEqual threshold rest with
    | some b, some out => some (if b then p :: out else out)
    | _, _ => none

/-- Python `nearly_equal_pairs(blocks_1, blocks_2=None, threshold=SIMILARITY_THRESHOLD)`. -/
def nearly_equal_pairs (blocks_1 : List GenericBlock)
    (blocks_2 : Option (List GenericBlock)) (threshold : ℚ) :
    Option (List (GenericBlock × GenericBlock)) :=
  keepNearlyEqual threshold (candidate_pairs blocks_1 blocks_2)

/-- Python `set.remove`: removes one occurrence, raising `KeyError` (`none`)
when the element is absent. -/
def removeBlock (x : GenericBlock) (l : List GenericBlock) : Option (List GenericBlock) :=
  if x ∈ l then some (l.erase x) else none

/-- Loop body of `Scene.diff`: `disappeared_blocks.remove(this_block)` and
`new_blocks.remove(that_block)` for one nearly-equal pair, on the accumulator
`(new_blocks, disappeared_blocks)`. -/
def diffStep (acc : List GenericBlock × List GenericBlock)
    (p : GenericBlock × GenericBlock) : Option (List GenericBlock × List GenericBlock) :=
  match removeBlock p.1 acc.2, removeBlock p.2 acc.1 with
  | some dis, some new => some (new, dis)
  | _, _ => none

/-- Python `Scene.diff(self, other)`: finds the nearly-equal pairs across the
two scenes, then removes each pair's first component from a copy of
`self.blocks` and its second component from a copy of `other.blocks`,
returning `(new_blocks, disappeared_blocks)`.  A `set.remove` of an
already-removed block raises `KeyError` (`none`). -/
def sceneDiff (self other : List GenericBlock) :
    Option (List GenericBlock × List GenericBlock) :=
  match nearly_equal_pairs self (some other) SIMILARITY_THRESHOLD with
  | none => none
  | some ppns => ppns.foldlM diffStep (other, self)

/-! ### Lemmas about pair finding -/

theorem mem_prodPairs {α : Type} {l1 l2 : List α} {p : α × α} :
    p ∈ prodPairs l1 l2 ↔ p.1 ∈ l1 ∧ p.2 ∈ l2 := by
  constructor
  · intro h
    rcases List.mem_flatMap.mp h with ⟨a, ha, hp⟩
    rcases List.mem_map.mp hp with ⟨b, hb, rfl⟩
    exact ⟨ha, hb⟩
  · rintro ⟨h1, h2⟩
    exact List.mem_flatMap.mpr ⟨p.1, h1, List.mem_map.mpr ⟨p.2, h2, rfl⟩⟩

theorem keepNearlyEqual_eval (threshold : ℚ) :
    ∀ (L : List (GenericBlock × GenericBlock)),
      (∀ p ∈ L, p.1.nearly_equals p.2 threshold = some (decide (p.1 = p.2))) →
      keepNearlyEqual threshold L = some (L.filter (fun p => decide (p.1 = p.2)))
  | [], _ => rfl
  | p :: rest, h => by
    have hp := h p (List.mem_cons_self p rest)
    have hrest := keepNearlyEqual_eval threshold rest
      (fun q hq => h q (List.mem_cons_of_mem p hq))
    unfold keepNearlyEqual
    rw [hp, hrest]
    by_cases hpe : p.1 = p.2
    · simp [List.filter_cons, hpe]
    · simp [List.filter_cons, hpe]

/-- A positive-area block is nearly equal to itself at the default threshold. -/
theorem nearly_equals_self {b : GenericBlock} (hw : 0 < b.width) (hh : 0 < b.height) :
    b.nearly_equals b SIMILARITY_THRESHOLD = some true := by
  have harea : (0 : ℚ) < b.area := mul_pos hw hh
  have hover : b.intersection_area b = b.area := by
    unfold GenericBlock.intersection_area GenericBlock.x_overlap GenericBlock.y_overlap
      GenericBlock.xmax GenericBlock.ymax GenericBlock.area
    rw [min_self, max_self, min_self, max_self]
    have hx : b.x + b.width - b.x = b.width := by ring
    have hy : b.y + b.height - b.y = b.height := by ring
    rw [hx, hy, max_eq_right hw.le, max_eq_right hh.le]
  have hppn : b.intersection_ppn b = some 1 := by
    unfold GenericBlock.intersection_ppn
    rw [max_self]
    rw [if_neg harea.ne', hover]
    rw [div_self harea.ne']
  have h1 : decide ((1 : ℚ) ≥ SIMILARITY_THRESHOLD) = true := by
    rw [decide_eq_true_eq]
    norm_num [SIMILARITY_THRESHOLD]
  unfold GenericBlock.nearly_equals
  rw [if_pos rfl, hppn]
  simp [h1]

/-- Filtering the cross product of a duplicate-free list with itself down to
the diagonal yields exactly the diagonal pairs, in order. -/
theorem map_filter_diag {x : GenericBlock} :
    ∀ (A : List GenericBlock), A.Nodup →
      (A.map (fun y => (x, y))).filter (fun p => decide (p.1 = p.2)) =
        if x ∈ A then [(x, x)] else []
  | [], _ => rfl
  | y :: ys, hnd => by
    have hys := @map_filter_diag x ys hnd.of_cons
    by_cases hxy : x = y
    · subst hxy
      have hnx : x ∉ ys := (List.nodup_cons.mp hnd).1
      simp [List.filter_cons, hys, hnx]
    · simp [List.filter_cons, hxy, hys, List.mem_cons]

theorem prodPairs_filter_diag (A : List GenericBlock) (hA : A.Nodup) :
    ∀ (l1 : List GenericBlock),
      (prodPairs l1 A).filter (fun p => decide (p.1 = p.2)) =
        (l1.filter (fun x => decide (x ∈ A))).map (fun x => (x, x))
  | [] => rfl
  | x :: xs => by
    have hxs := prodPairs_filter_diag A hA xs
    show ((A.map (fun y => (x, y))) ++ prodPairs xs A).filter _ = _
    rw [List.filter_append, hxs, map_filter_diag A hA, List.filter_cons]
    by_cases hmem : x ∈ A
    · simp [hmem]
    · simp [hmem]

theorem foldlM_diag_diffStep :
    ∀ (l : List GenericBlock),
      (l.map (fun b => (b, b))).foldlM diffStep (l, l) = some ([], [])
  | [] => rfl
  | x :: xs => by
    have hx : removeBlock x (x :: xs) = some xs := by
      unfold removeBlock
      rw [if_pos (List.mem_cons_self x xs), List.erase_cons_head]
    show ((x, x) :: xs.map (fun b => (b, b))).foldlM diffStep (x :: xs, x :: xs) = _
    rw [List.foldlM_cons]
    show Option.bind (diffStep (x :: xs, x :: xs) (x, x)) _ = _
    unfold diffStep
    simp only [hx]
    exact foldlM_diag_diffStep xs

/-! ### Claim C3: `Scene.diff(a, a)` -/

/-- C3 counterexample: a scene holding two distinct nearly-equal blocks.  The
cross product then contains both `(b1, b2)` and the diagonal pairs, so
`set.remove` is asked to remove `b1` twice and raises `KeyError`: the diff
does not return a pair of empty sets (it does not return at all). -/
theorem sceneDiff_self_counterexample :
    sceneDiff [⟨1, 0, 0, 20, 20⟩, ⟨1, 0, 0, 20, 19⟩]
        [⟨1, 0, 0, 20, 20⟩, ⟨1, 0, 0, 20, 19⟩] = none := by
  have ne11 : (⟨1, 0, 0, 20, 20⟩ : GenericBlock).nearly_equals ⟨1, 0, 0, 20, 20⟩
      SIMILARITY_THRESHOLD = some true := nearly_equals_self (by norm_num) (by norm_num)
  have ne22 : (⟨1, 0, 0, 20, 19⟩ : GenericBlock).nearly_equals ⟨1, 0, 0, 20, 19⟩
      SIMILARITY_THRESHOLD = some true := nearly_equals_self (by norm_num) (by norm_num)
  have ne12 : (⟨1, 0, 0, 20, 20⟩ : GenericBlock).nearly_equals ⟨1, 0, 0, 20, 19⟩
      SIMILARITY_THRESHOLD = some true := by
    unfold GenericBlock.nearly_equals GenericBlock.intersection_ppn
      GenericBlock.intersection_area GenericBlock.x_overlap GenericBlock.y_overlap
      GenericBlock.xmax GenericBlock.ymax GenericBlock.area
    norm_num [min_def, max_def, SIMILARITY_THRESHOLD]
  have ne21 : (⟨1, 0, 0, 20, 19⟩ : GenericBlock).nearly_equals ⟨1, 0, 0, 20, 20⟩
      SIMILARITY_THRESHOLD = some true := by
    unfold GenericBlock.nearly_equals GenericBlock.intersection_ppn
      GenericBlock.intersection_area GenericBlock.x_overlap GenericBlock.y_overlap
      GenericBlock.xmax GenericBlock.ymax GenericBlock.area
    norm_num [min_def, max_def, SIMILARITY_THRESHOLD]
  have hpairs : nearly_equal_pairs [⟨1, 0, 0, 20, 20⟩, ⟨1, 0, 0, 20, 19⟩]
      (some [⟨1, 0, 0, 20, 20⟩, ⟨1, 0, 0, 20, 19⟩]) SIMILARITY_THRESHOLD =
      some [(⟨1, 0, 0, 20, 20⟩, ⟨1, 0, 0, 20, 20⟩), (⟨1, 0, 0, 20, 20⟩, ⟨1, 0, 0, 20, 19⟩),
            (⟨1, 0, 0, 20, 19⟩, ⟨1, 0, 0, 20, 20⟩), (⟨1, 0, 0, 20, 19⟩, ⟨1, 0, 0, 20, 19⟩)] := by
    unfold nearly_equal_pairs candidate_pairs prodPairs
    simp [keepNearlyEqual, ne11, ne12, ne21, ne22]
  unfold sceneDiff
  rw [hpairs]
  have hb12 : (⟨1, 0, 0, 20, 20⟩ : GenericBlock) ≠ ⟨1, 0, 0, 20, 19⟩ := by decide
  simp [List.foldlM, diffStep, removeBlock, hb12]

/-- C3 amended: for a duplicate-free scene whose blocks all have positive
width and height and in which no two distinct blocks are nearly equal,
`Scene.diff(a, a)` returns empty "added" and empty "disappeared" sets.
(The positivity rules out the `ZeroDivisionError` of `intersection_ppn`, and
the separation rules out the `KeyError` of the double `set.remove`.) -/
theorem sceneDiff_self (a : List GenericBlock) (hnd : a.Nodup)
    (hpos : ∀ b ∈ a, 0 < b.width ∧ 0 < b.height)
    (hsep : ∀ b ∈ a, ∀ c ∈ a, b ≠ c →
      b.nearly_equals c SIMILARITY_THRESHOLD = some false) :
    sceneDiff a a = some ([], []) := by
  have hpairs : nearly_equal_pairs a (some a) SIMILARITY_THRESHOLD =
      some ((prodPairs a a).filter (fun p => decide (p.1 = p.2))) := by
    unfold nearly_equal_pairs candidate_pairs
    apply keepNearlyEqual_eval
    intro p hp
    rcases mem_prodPairs.mp hp with ⟨h1, h2⟩
    by_cases hpe : p.1 = p.2
    · rw [hpe]
      simp only [hpe, decide_eq_true_eq]
      rw [nearly_equals_self (hpos p.2 h2).1 (hpos p.2 h2).2]
      simp
    · rw [hsep p.1 h1 p.2 h2 hpe]
      simp [hpe]
  have hfilter : (prodPairs a a).filter (fun p => decide (p.1 = p.2)) =
      a.map (fun b => (b, b)) := by
    rw [prodPairs_filter_diag a hnd a]
    have : a.filter (fun x => decide (x ∈ a)) = a :=
      List.filter_eq_self.mpr (fun x hx => by simpa using hx)
    rw [this]
  unfold sceneDiff
  rw [hpairs, hfilter]
  exact foldlM_diag_diffStep a

/-- Witness for C3's amended theorem: two well-separated blocks diff to empty
sets against themselves. -/
theorem sceneDiff_self_witness :
    sceneDiff [⟨1, 0, 0, 2, 2⟩, ⟨2, 50, 50, 3, 3⟩] [⟨1, 0, 0, 2, 2⟩, ⟨2, 50, 50, 3, 3⟩] =
      some ([], []) :=
  sceneDiff_self [⟨1, 0, 0, 2, 2⟩, ⟨2, 50, 50, 3, 3⟩] (by decide) (by decide) (by decide)

/-! ### Laser controller shared state (shooting.py) -/

/-- The state shared between the commander (`LaserController`) and the firing
worker (`LaserProcess`) through a `LaserInterface`: the `firing` and
`stood_down` flags and the `last_fired` / `last_hit` timestamps.  Timestamps
are modelled as exact rationals (seconds). -/
structure LaserShared where
  firing : Bool
  stood_down : Bool
  last_fired : ℚ
  last_hit : ℚ
deriving DecidableEq, Repr

/-- Worker-side `LaserProcess._check_hit` at time `now`: if still inside the
`recovery` window the weapon is disabled (`True`) without touching the serial
channel; otherwise, if a `HIT` line is pending (`hitLine`), record `last_hit`
and report `True`; else report `False`.  Returns (hit, new state). -/
def check_hit (recovery now : ℚ) (hitLine : Bool) (s : LaserShared) :
    Bool × LaserShared :=
  if now - s.last_hit < recovery then (true, s)
  else if hitLine then (true, { s with last_hit := now })
  else (false, s)

/-- One iteration of the worker loop body in `LaserProcess.run`:
`if self.interface.firing and not self.interface.is_cooling and not self._check_hit(): self._fire()`.
Python's `and` short-circuits, so `_check_hit` (and its `last_hit` side effect)
only runs when `firing` is set and the cooldown has elapsed.  Returns the new
shared state and whether a shot was fired (`_fire` writes `FIRE\n` and updates
`last_fired`). -/
def laserStep (cooldown recovery now : ℚ) (hitLine : Bool) (s : LaserShared) :
    LaserShared × Bool :=
  if s.firing = true ∧ ¬(now - s.last_fired < cooldown) then
    match check_hit recovery now hitLine s with
    | (true, s1) => (s1, false)
    | (false, s1) => ({ s1 with last_fired := now }, true)
  else (s, false)

/-- Several consecutive worker loop iterations, fed by a list of
(current time, pending HIT line) observations; collects the per-iteration
"fired" outcomes. -/
def laserRun (cooldown recovery : ℚ) :
    List (ℚ × Bool) → LaserShared → LaserShared × List Bool
  | [], s => (s, [])
  | (now, hit) :: rest, s =>
    let step := laserStep cooldown recovery now hit s
    let next := laserRun cooldown recovery rest step.1
    (next.1, step.2 :: next.2)

/-- Commander-side `LaserController.fire_once`: sets `firing`, waits for
`last_fired` to change (`waitResult` is the boolean outcome of
`wait_for_change`, whose polling only reads shared state), clears `firing`,
and returns the wait outcome.  Only the commander's own writes to the shared
state are modelled. -/
def fire_once (s : LaserShared) (waitResult : Bool) : LaserShared × Bool :=
  let s1 := { s with firing := true }
  let s2 := { s1 with firing := false }
  (s2, waitResult)

/-- Commander-side `LaserController.fire_at_will(block, timeout)`: optionally
blocks through one `fire_once`, then sets `firing`. -/
def fire_at_will (s : LaserShared) (block : Bool) (waitResult : Bool) :
    LaserShared × Option Bool :=
  if block then
    let r := fire_once s waitResult
    ({ r.1 with firing := true }, some r.2)
  else ({ s with firing := true }, none)

/-- Commander-side `LaserController.hold_fire`. -/
def hold_fire (s : LaserShared) : LaserShared := { s with firing := false }

/-- Commander-side shared-state write of `LaserController.stand_down`
(`self.interface.stood_down = True`; the join and the singleton bookkeeping
are modelled separately). -/
def commander_stand_down (s : LaserShared) : LaserShared := { s with stood_down := true }

/-- Worker-side `LaserProcess._setup_serial`: acquires the serial handle and
then signals readiness by clearing `stood_down`
(`self.interface.stood_down = False`). -/
def setup_serial (s : LaserShared) : LaserShared := { s with stood_down := false }

/-! ### Claim C1: firing preconditions and the recovery freeze -/

theorem check_hit_last_hit (recovery now : ℚ) (hitLine : Bool) (s : LaserShared) :
    (check_hit recovery now hitLine s).2.last_hit = s.last_hit ∨
      (check_hit recovery now hitLine s).2.last_hit = now := by
  unfold check_hit
  split_ifs <;> simp

theorem laserStep_last_hit (cooldown recovery now : ℚ) (hitLine : Bool) (s : LaserShared) :
    (laserStep cooldown recovery now hitLine s).1.last_hit = s.last_hit ∨
      (laserStep cooldown recovery now hitLine s).1.last_hit = now := by
  unfold laserStep
  split_ifs with h
  · rcases hc : check_hit recovery now hitLine s with ⟨b, s1⟩
    have := check_hit_last_hit recovery now hitLine s
    rw [hc] at this
    cases b <;> simpa using this
  · simp

theorem laserStep_fire_condition (cooldown recovery now : ℚ) (hitLine : Bool)
    (s : LaserShared) (hfired : (laserStep cooldown recovery now hitLine s).2 = true) :
    s.firing = true ∧ cooldown ≤ now - s.last_fired ∧ hitLine = false ∧
      recovery ≤ now - s.last_hit := by
  unfold laserStep at hfired
  split_ifs at hfired with h
  · rcases hc : check_hit recovery now hitLine s with ⟨b, s1⟩
    rw [hc] at hfired
    cases b
    · unfold check_hit at hc
      split_ifs at hc with h1 h2
      · simp at hc
      · simp at hc
      · exact ⟨h.1, not_lt.mp h.2, by simpa using h2, not_lt.mp h1⟩
    · simp at hfired

theorem laserRun_no_fire_in_recovery (cooldown recovery : ℚ) :
    ∀ (inputs : List (ℚ × Bool)) (s : LaserShared) (h : ℚ), h ≤ s.last_hit →
      (∀ p ∈ inputs, h ≤ p.1 ∧ p.1 - h < recovery) →
      ∀ b ∈ (laserRun cooldown recovery inputs s).2, b = false
  | [], _, _, _, _ => by intro b hb; simp [laserRun] at hb
  | (now, hit) :: rest, s, h, hh, hin => by
    intro b hb
    have hnow := hin (now, hit) (List.mem_cons_self _ _)
    have hnofire : (laserStep cooldown recovery now hit s).2 = false := by
      by_contra hure
      have hfired := laserStep_fire_condition cooldown recovery now hit s
        (Bool.not_eq_false _ |>.mp hure)
      have : recovery ≤ now - s.last_hit := hfired.2.2.2
      have hlt : now - s.last_hit < recovery := by
        have : now - s.last_hit ≤ now - h := by linarith
        linarith [hnow.2]
      linarith
    have hnext : h ≤ (laserStep cooldown recovery now hit s).1.last_hit := by
      rcases laserStep_last_hit cooldown recovery now hit s with heq | heq
      · rw [heq]; exact hh
      · rw [heq]; exact hnow.1
    have hrest := laserRun_no_fire_in_recovery cooldown recovery rest
      (laserStep cooldown recovery now hit s).1 h hnext
      (fun p hp => hin p (List.mem_cons_of_mem _ hp))
    simp only [laserRun] at hb
    rcases List.mem_cons.mp hb with rfl | hb2
    · exact hnofire
    · exact hrest b hb2

/-- C1: in each iteration of the worker loop, a shot happens only when
`firing` is set, the cooldown has elapsed since `last_fired`, no `HIT` line is
pending, and the recovery window since `last_hit` has elapsed; consequently,
over any run of iterations whose times stay within `recovery` of the recorded
`last_hit`, no shot is fired even if `firing` stays true throughout. -/
theorem laser_fire_conditions (cooldown recovery : ℚ) :
    (∀ (now : ℚ) (hitLine : Bool) (s : LaserShared),
        (laserStep cooldown recovery now hitLine s).2 = true →
        s.firing = true ∧ cooldown ≤ now - s.last_fired ∧ hitLine = false ∧
          recovery ≤ now - s.last_hit) ∧
    (∀ (inputs : List (ℚ × Bool)) (s : LaserShared),
        (∀ p ∈ inputs, s.last_hit ≤ p.1 ∧ p.1 - s.last_hit < recovery) →
        ∀ b ∈ (laserRun cooldown recovery inputs s).2, b = false) :=
  ⟨laserStep_fire_condition cooldown recovery,
   fun inputs s hin =>
     laserRun_no_fire_in_recovery cooldown recovery inputs s s.last_hit le_rfl hin⟩

/-- Witness for C1: with `cooldown = 1`, `recovery = 5`, an enabled idle state
hit at time 0 fires at time 10, and a two-iteration run at times 3 and 4
(inside the recovery window) never fires even with `firing = true`. -/
theorem laser_fire_conditions_witness :
    ((laserStep 1 5 10 false ⟨true, false, 0, 0⟩).2 = true ∧
      (⟨true, false, 0, 0⟩ : LaserShared).firing = true ∧
        (1 : ℚ) ≤ 10 - (⟨true, false, 0, 0⟩ : LaserShared).last_fired) ∧
    ((∀ p ∈ [((3 : ℚ), false), ((4 : ℚ), true)],
        (⟨true, false, 0, 0⟩ : LaserShared).last_hit ≤ p.1 ∧
          p.1 - (⟨true, false, 0, 0⟩ : LaserShared).last_hit < 5) ∧
      ∀ b ∈ (laserRun 1 5 [((3 : ℚ), false), ((4 : ℚ), true)] ⟨true, false, 0, 0⟩).2,
        b = false) := by
  have heval : (laserStep 1 5 10 false ⟨true, false, 0, 0⟩).2 = true := by
    have h1 : ¬((10 : ℚ) - 0 < 1) := by norm_num
    have h2 : ¬((10 : ℚ) - 0 < 5) := by norm_num
    have h3 : ¬((10 : ℚ) < 1) := by norm_num
    have h4 : ¬((10 : ℚ) < 5) := by norm_num
    simp [laserStep, check_hit, h1, h2, h3, h4]
  have hhyp : ∀ p ∈ [((3 : ℚ), false), ((4 : ℚ), true)],
      (⟨true, false, 0, 0⟩ : LaserShared).last_hit ≤ p.1 ∧
        p.1 - (⟨true, false, 0, 0⟩ : LaserShared).last_hit < 5 := by
    intro p hp
    rcases List.mem_cons.mp hp with rfl | hp2
    · constructor <;> norm_num
    · rcases List.mem_cons.mp hp2 with rfl | hp3
      · constructor <;> norm_num
      · simp at hp3
  exact ⟨⟨heval,
    ((laser_fire_conditions 1 5).1 10 false ⟨true, false, 0, 0⟩ heval).1,
    ((laser_fire_conditions 1 5).1 10 false ⟨true, false, 0, 0⟩ heval).2.1⟩,
   hhyp, (laser_fire_conditions 1 5).2 [((3 : ℚ), false), ((4 : ℚ), true)]
     ⟨true, false, 0, 0⟩ hhyp⟩

/-! ### Claim C2: single-writer discipline -/

/-- C2 counterexample: the worker does write `stood_down`.  `LaserProcess.run`
calls `_setup_serial`, which executes `self.interface.stood_down = False` to
signal readiness, so an operation executed by the worker changes
`stood_down`. -/
theorem setup_serial_writes_stood_down :
    (setup_serial ⟨false, true, 0, 0⟩).stood_down ≠
      (⟨false, true, 0, 0⟩ : LaserShared).stood_down := by
  decide

theorem laserRun_preserves_flags (cooldown recovery : ℚ) :
    ∀ (inputs : List (ℚ × Bool)) (s : LaserShared),
      (laserRun cooldown recovery inputs s).1.firing = s.firing ∧
        (laserRun cooldown recovery inputs s).1.stood_down = s.stood_down
  | [], s => ⟨rfl, rfl⟩
  | (now, hit) :: rest, s => by
    have hstep : (laserStep cooldown recovery now hit s).1.firing = s.firing ∧
        (laserStep cooldown recovery now hit s).1.stood_down = s.stood_down := by
      unfold laserStep check_hit
      split_ifs <;> simp
    have hrest := laserRun_preserves_flags cooldown recovery rest
      (laserStep cooldown recovery now hit s).1
    exact ⟨hrest.1.trans hstep.1, hrest.2.trans hstep.2⟩

/-- C2 amended: the worker (`LaserProcess`) is the sole writer of `last_fired`
and `last_hit`, and the commander (`LaserController`) is the sole writer of
`firing`; but `stood_down` is written by both sides — the commander sets it in
`stand_down`, and the worker clears it once in `_setup_serial` to signal
readiness.  Concretely: the worker's loop body and whole runs preserve
`firing` and `stood_down`; `_setup_serial` preserves `firing`, `last_fired`
and `last_hit` (writing only `stood_down`); and every commander operation
(`fire_once`, `fire_at_will`, `hold_fire`, `stand_down`) preserves
`last_fired` and `last_hit`, with only `stand_down` touching `stood_down`. -/
theorem single_writer_discipline (cooldown recovery : ℚ) :
    (∀ (now : ℚ) (hitLine : Bool) (s : LaserShared),
        (laserStep cooldown recovery now hitLine s).1.firing = s.firing ∧
          (laserStep cooldown recovery now hitLine s).1.stood_down = s.stood_down) ∧
    (∀ (inputs : List (ℚ × Bool)) (s : LaserShared),
        (laserRun cooldown recovery inputs s).1.firing = s.firing ∧
          (laserRun cooldown recovery inputs s).1.stood_down = s.stood_down) ∧
    (∀ s : LaserShared,
        (setup_serial s).firing = s.firing ∧
          (setup_serial s).last_fired = s.last_fired ∧
          (setup_serial s).last_hit = s.last_hit ∧
          (setup_serial s).stood_down = false) ∧
    (∀ (s : LaserShared) (w : Bool),
        (fire_once s w).1.last_fired = s.last_fired ∧
          (fire_once s w).1.last_hit = s.last_hit ∧
          (fire_once s w).1.stood_down = s.stood_down) ∧
    (∀ (s : LaserShared) (b w : Bool),
        (fire_at_will s b w).1.last_fired = s.last_fired ∧
          (fire_at_will s b w).1.last_hit = s.last_hit ∧
          (fire_at_will s b w).1.stood_down = s.stood_down) ∧
    (∀ s : LaserShared,
        (hold_fire s).last_fired = s.last_fired ∧
          (hold_fire s).last_hit = s.last_hit ∧
          (hold_fire s).stood_down = s.stood_down) ∧
    (∀ s : LaserShared,
        (commander_stand_down s).last_fired = s.last_fired ∧
          (commander_stand_down s).last_hit = s.last_hit ∧
          (commander_stand_down s).firing = s.firing) := by
  refine ⟨?_, laserRun_preserves_flags cooldown recovery, ?_, ?_, ?_, ?_, ?_⟩
  · intro now hitLine s
    unfold laserStep check_hit
    split_ifs <;> simp
  · intro s
    exact ⟨rfl, rfl, rfl, rfl⟩
  · intro s w
    exact ⟨rfl, rfl, rfl⟩
  · intro s b w
    unfold fire_at_will fire_once
    split_ifs <;> exact ⟨rfl, rfl, rfl⟩
  · intro s
    exact ⟨rfl, rfl, rfl⟩
  · intro s
    exact ⟨rfl, rfl, rfl⟩

/-! ### Claim C10: `fire_once` always leaves `firing = False` -/

/-- C10: whatever the outcome of the wait (`True` success or `False` timeout)
and whatever the prior state — in particular with continuous-fire mode active
from an earlier `fire_at_will` — `fire_once` returns with the shared `firing`
flag cleared, and reports the wait outcome. -/
theorem fire_once_clears_firing (s : LaserShared) (waitResult : Bool) :
    (fire_once s waitResult).1.firing = false ∧
      (fire_once s waitResult).2 = waitResult :=
  ⟨rfl, rfl⟩

/-! ### The `LaserController` singleton (shooting.py, `__new__` / `stand_down`) -/

/-- Model of the controller-level object state relevant to the singleton
contract.  Python semantics captured here, as written in the source:

* `LaserController.__new__` (a classmethod) caches the instance in the class
  attribute `_LaserController__instance` and returns the cached instance on
  every later call; Python's `type.__call__` then re-runs `__init__` on the
  returned instance, rebinding `self.interface` and `self.laser_process` to
  brand-new objects (`ifaceGen` / `procGen` track which generation of objects
  the singleton currently references, `fresh` supplies new generation ids).
* `stand_down` executes `self.__instance = None`, which after name mangling
  assigns the *instance* attribute `_LaserController__instance` on `self`
  (`shadowAttr`); the class attribute consulted by `__new__` is untouched.
* `start` calls `laser_process.start()`, spawning a worker for the process
  object currently referenced; `running` lists the process generations whose
  workers have been spawned and not yet joined. -/
structure ControllerWorld where
  classAttr : Bool
  ifaceGen : Nat
  procGen : Nat
  shadowAttr : Bool
  running : List Nat
  fresh : Nat
deriving DecidableEq, Repr

/-- The world before any `LaserController()` call: the class attribute
`__instance` is `None`. -/
def initialWorld : ControllerWorld :=
  { classAttr := false, ifaceGen := 0, procGen := 0, shadowAttr := false,
    running := [], fresh := 1 }

/-- `LaserController()`: `__new__` returns the cached instance (creating and
caching one only when the class attribute is unset), then `__init__` runs
unconditionally on it, giving it a fresh `LaserInterface` and a fresh
unstarted `LaserProcess`.  The returned flag records whether an instance
already existed (i.e. whether the singleton instance was returned rather than
a new object allocated). -/
def construct (w : ControllerWorld) : ControllerWorld × Bool :=
  ({ classAttr := true, ifaceGen := w.fresh, procGen := w.fresh + 1,
     shadowAttr := w.shadowAttr, running := w.running, fresh := w.fresh + 2 },
   w.classAttr)

/-- `LaserController.start()`: spawns the worker for the currently referenced
`LaserProcess` object. -/
def controller_start (w : ControllerWorld) : ControllerWorld :=
  { w with running := w.procGen :: w.running }

/-- `LaserController.stand_down()`: sets `interface.stood_down` (modelled on
`LaserShared` by `commander_stand_down`), joins the currently referenced
worker process, and executes `self.__instance = None`, which only creates an
instance attribute (`shadowAttr`); `classAttr` is not cleared. -/
def controller_stand_down (w : ControllerWorld) : ControllerWorld :=
  { w with running := w.running.erase w.procGen, shadowAttr := true }

/-! ### Claim C5: duplicate construction -/

/-- C5: evaluating the nested-use scenario
`LaserController(); start(); LaserController(); start()` (e.g. two nested
`with LaserController()` blocks).  The second construction does return the
singleton instance (no second controller object), but `__init__` re-runs and
rebinds the interface and process references, so the first worker is orphaned
and the second `start()` spawns a second live worker: two hardware-owning
workers run at once, and the first controller's state is not left intact. -/
theorem duplicate_construction_two_workers :
    ((construct (controller_start (construct initialWorld).1)).2 = true) ∧
    (construct (controller_start (construct initialWorld).1)).1.ifaceGen ≠
      (construct initialWorld).1.ifaceGen ∧
    (controller_start (construct (controller_start (construct initialWorld).1)).1).running.length = 2 := by
  decide

/-! ### Claim C6: `stand_down` and the singleton -/

/-- C6: evaluating `LaserController(); start(); stand_down(); LaserController()`.
`stand_down` does signal the worker (`stood_down := True`, see
`commander_stand_down`) and joins it, but `self.__instance = None` only
creates an instance attribute: the class attribute remains set, so the next
`LaserController()` returns the stood-down instance instead of a fresh
controller. -/
theorem stand_down_does_not_clear_singleton :
    (∀ s : LaserShared, (commander_stand_down s).stood_down = true) ∧
    (controller_stand_down (controller_start (construct initialWorld).1)).running = [] ∧
    (controller_stand_down (controller_start (construct initialWorld).1)).classAttr = true ∧
    (construct (controller_stand_down (controller_start (construct initialWorld).1))).2 = true := by
  refine ⟨fun s => rfl, ?_, ?_, ?_⟩ <;> decide

/-! ### Connected components of the near-equality graph

`merge_similar_blocks` delegates to `networkx`: an undirected graph is built
from node and edge lists and `nx.connected_components` yields its connected
components.  The components are computed here by iterating a one-step
neighbourhood expansion `nodes.card` times, and proved to coincide with the
reflexive-transitive closure of the symmetric edge relation. -/

/-- The symmetric adjacency relation generated by an edge list
(`nx.Graph` is undirected). -/
def Adj {α : Type} (edges : List (α × α)) (u v : α) : Prop :=
  (u, v) ∈ edges ∨ (v, u) ∈ edges

instance adjDecidable {α : Type} [DecidableEq α] (edges : List (α × α)) (u v : α) :
    Decidable (Adj edges u v) :=
  inferInstanceAs (Decidable ((u, v) ∈ edges ∨ (v, u) ∈ edges))

/-- One breadth-first expansion step: everything in `s` plus every node
adjacent to `s`. -/
def expand {α : Type} [DecidableEq α] (nodes : Finset α) (edges : List (α × α))
    (s : Finset α) : Finset α :=
  nodes.filter (fun v => v ∈ s ∨ ∃ u ∈ s, Adj edges u v)

/-- The connected component of `u`: expanding `{u}` `nodes.card` times reaches
the fixpoint. -/
def componentOf {α : Type} [DecidableEq α] (nodes : Finset α) (edges : List (α × α))
    (u : α) : Finset α :=
  (expand nodes edges)^[nodes.card] {u}

section Components

variable {α : Type} [DecidableEq α] (nodes : Finset α) (edges : List (α × α))

theorem mem_expand {s : Finset α} {v : α} :
    v ∈ expand nodes edges s ↔ v ∈ nodes ∧ (v ∈ s ∨ ∃ u ∈ s, Adj edges u v) := by
  simp [expand]

theorem expand_subset (s : Finset α) : expand nodes edges s ⊆ nodes :=
  Finset.filter_subset _ _

theorem subset_expand {s : Finset α} (h : s ⊆ nodes) : s ⊆ expand nodes edges s :=
  fun v hv => (mem_expand nodes edges).mpr ⟨h hv, Or.inl hv⟩

theorem iterate_expand_subset (u : α) (hu : u ∈ nodes) :
    ∀ k, (expand nodes edges)^[k] {u} ⊆ nodes
  | 0 => by simpa using Finset.singleton_subset_iff.mpr hu
  | k + 1 => by
    rw [Function.iterate_succ_apply']
    exact expand_subset nodes edges _

theorem iterate_expand_mono (u : α) (hu : u ∈ nodes) (k : ℕ) :
    (expand nodes edges)^[k] {u} ⊆ (expand nodes edges)^[k + 1] {u} := by
  rw [Function.iterate_succ_apply']
  exact subset_expand nodes edges (iterate_expand_subset nodes edges u hu k)

theorem mem_iterate_self (u : α) (hu : u ∈ nodes) :
    ∀ k, u ∈ (expand nodes edges)^[k] {u}
  | 0 => Finset.mem_singleton_self u
  | k + 1 => by
    rw [Function.iterate_succ_apply']
    exact (mem_expand _ _).mpr ⟨hu, Or.inl (mem_iterate_self u hu k)⟩

theorem iterate_expand_reach (u : α) :
    ∀ (k : ℕ) (v : α), v ∈ (expand nodes edges)^[k] {u} →
      Relation.ReflTransGen (Adj edges) u v
  | 0, v, hv => by
    have : v = u := by simpa using hv
    rw [this]
  | k + 1, v, hv => by
    rw [Function.iterate_succ_apply'] at hv
    rcases (mem_expand _ _).mp hv with ⟨hvn, hv2 | ⟨w, hw, hadj⟩⟩
    · exact iterate_expand_reach u k v hv2
    · exact (iterate_expand_reach u k w hw).tail hadj

theorem expand_iterate_fixed (u : α) (hu : u ∈ nodes) :
    expand nodes edges ((expand nodes edges)^[nodes.card] {u}) =
      (expand nodes edges)^[nodes.card] {u} := by
  have key : ∀ k : ℕ,
      expand nodes edges ((expand nodes edges)^[k] {u}) = (expand nodes edges)^[k] {u} ∨
        k + 1 ≤ ((expand nodes edges)^[k] {u}).card := by
    intro k
    induction k with
    | zero =>
      right
      simp
    | succ k ih =>
      have hstep : (expand nodes edges)^[k + 1] {u} =
          expand nodes edges ((expand nodes edges)^[k] {u}) :=
        Function.iterate_succ_apply' _ _ _
      rcases ih with heq | hcard
      · left
        rw [hstep, heq]
        exact heq
      · by_cases heq : expand nodes edges ((expand nodes edges)^[k] {u}) =
            (expand nodes edges)^[k] {u}
        · left
          rw [hstep, heq]
          exact heq
        · right
          have hsub := iterate_expand_mono nodes edges u hu k
          have hss : (expand nodes edges)^[k] {u} ⊂ (expand nodes edges)^[k + 1] {u} :=
            Finset.ssubset_iff_subset_ne.mpr
              ⟨hsub, fun h => heq (hstep.symm.trans h.symm)⟩
          have hlt := Finset.card_lt_card hss
          omega
  rcases key nodes.card with heq | hcard
  · exact heq
  · exfalso
    have := Finset.card_le_card (iterate_expand_subset nodes edges u hu nodes.card)
    omega

theorem reach_mem_componentOf (u : α) (hu : u ∈ nodes)
    (hE : ∀ e ∈ edges, e.1 ∈ nodes ∧ e.2 ∈ nodes) {v : α}
    (hreach : Relation.ReflTransGen (Adj edges) u v) :
    v ∈ componentOf nodes edges u := by
  induction hreach with
  | refl => exact mem_iterate_self nodes edges u hu nodes.card
  | @tail b c hab hbc ih =>
    have hcn : c ∈ nodes := by
      rcases hbc with h | h
      · exact (hE _ h).2
      · exact (hE _ h).1
    unfold componentOf
    rw [← expand_iterate_fixed nodes edges u hu]
    exact (mem_expand _ _).mpr ⟨hcn, Or.inr ⟨b, ih, hbc⟩⟩

theorem mem_componentOf_iff (u : α) (hu : u ∈ nodes)
    (hE : ∀ e ∈ edges, e.1 ∈ nodes ∧ e.2 ∈ nodes) (v : α) :
    v ∈ componentOf nodes edges u ↔
      v ∈ nodes ∧ Relation.ReflTransGen (Adj edges) u v := by
  constructor
  · intro hv
    exact ⟨iterate_expand_subset nodes edges u hu nodes.card hv,
           iterate_expand_reach nodes edges u nodes.card v hv⟩
  · rintro ⟨-, hreach⟩
    exact reach_mem_componentOf nodes edges u hu hE hreach

end Components

/-! ### `merge_similar_blocks` (vision.py) -/

/-- The node list handed to `g.add_nodes_from`:
`itertools.chain(blocks_1, blocks_2) if blocks_2 else blocks_1` — note the
Python truthiness test, under which an empty `blocks_2` also selects
`blocks_1` alone. -/
def graphNodes (blocks_1 : List GenericBlock)
    (blocks_2 : Option (List GenericBlock)) : List GenericBlock :=
  match blocks_2 with
  | some l2 => if l2.isEmpty then blocks_1 else blocks_1 ++ l2
  | none => blocks_1

/-- The per-component step of `merge_similar_blocks`: a component of size 1 is
passed through (`component.pop()`), anything else goes through
`merge_blocks(*component)`. -/
def merge_component (comp : List GenericBlock) : Option GenericBlock :=
  match comp with
  | [x] => some x
  | l => merge_blocks l

/-- The loop `for component in nx.connected_components(g)`: collect the
merged representative of every component (each given as the list of its
member blocks), propagating a failed `merge_blocks` assertion. -/
def mergeComponents : List (List GenericBlock) → Option (List GenericBlock)
  | [] => some []
  | comp :: rest =>
    match merge_component comp, mergeComponents rest with
    | some b, some out => some (b :: out)
    | _, _ => none

/-- The list of member blocks of the connected component of `u`, in the order
of the (deduplicated) node list. -/
def componentList (nodesList : List GenericBlock)
    (edges : List (GenericBlock × GenericBlock)) (u : GenericBlock) :
    List GenericBlock :=
  nodesList.filter (fun v => v ∈ componentOf nodesList.toFinset edges u)

/-- Python `merge_similar_blocks(blocks_1, blocks_2=None)`: build the graph on
all input blocks with the nearly-equal pairs as edges, and merge each
connected component (each component is listed once). -/
def merge_similar_blocks (blocks_1 : List GenericBlock)
    (blocks_2 : Option (List GenericBlock)) : Option (Finset GenericBlock) :=
  match nearly_equal_pairs blocks_1 blocks_2 SIMILARITY_THRESHOLD with
  | none => none
  | some edges =>
    match mergeComponents
        (((graphNodes blocks_1 blocks_2).dedup.map
          (fun u => componentList (graphNodes blocks_1 blocks_2).dedup edges u)).dedup) with
    | none => none
    | some merged => some merged.toFinset

/-! ### Lemmas about the graph construction -/

theorem keepNearlyEqual_mem (threshold : ℚ) :
    ∀ {L out : List (GenericBlock × GenericBlock)},
      keepNearlyEqual threshold L = some out →
      ∀ p, p ∈ out ↔ p ∈ L ∧ p.1.nearly_equals p.2 threshold = some true
  | [], out, h, p => by
    injection h with h'
    simp [← h']
  | q :: rest, out, h, p => by
    unfold keepNearlyEqual at h
    cases hq : q.1.nearly_equals q.2 threshold with
    | none =>
      rw [hq] at h
      exact absurd h (by simp)
    | some bq =>
      cases hrest : keepNearlyEqual threshold rest with
      | none =>
        rw [hq, hrest] at h
        exact absurd h (by simp)
      | some out' =>
        rw [hq, hrest] at h
        injection h with h'
        subst h'
        have hih := keepNearlyEqual_mem threshold hrest p
        cases bq with
        | true =>
          rw [if_pos rfl]
          constructor
          · intro hp
            rcases List.mem_cons.mp hp with rfl | hp'
            · exact ⟨List.mem_cons_self _ _, hq⟩
            · have h2 := hih.mp hp'
              exact ⟨List.mem_cons_of_mem _ h2.1, h2.2⟩
          · rintro ⟨hpL, hptrue⟩
            rcases List.mem_cons.mp hpL with rfl | hp'
            · exact List.mem_cons_self _ _
            · exact List.mem_cons_of_mem _ (hih.mpr ⟨hp', hptrue⟩)
        | false =>
          rw [if_neg Bool.false_ne_true]
          constructor
          · intro hp
            have h2 := hih.mp hp
            exact ⟨List.mem_cons_of_mem _ h2.1, h2.2⟩
          · rintro ⟨hpL, hptrue⟩
            rcases List.mem_cons.mp hpL with rfl | hp'
            · rw [hq] at hptrue
              exact absurd hptrue (by simp)
            · exact hih.mpr ⟨hp', hptrue⟩

theorem mem_combPairs {α : Type} :
    ∀ {l : List α} {p : α × α}, p ∈ combPairs l → p.1 ∈ l ∧ p.2 ∈ l
  | [], p, hp => absurd hp (by simp [combPairs])
  | x :: xs, p, hp => by
    unfold combPairs at hp
    rcases List.mem_append.mp hp with hmap | hrec
    · rcases List.mem_map.mp hmap with ⟨y, hy, rfl⟩
      exact ⟨by simp, by simp [hy]⟩
    · have h2 := mem_combPairs hrec
      exact ⟨List.mem_cons_of_mem _ h2.1, List.mem_cons_of_mem _ h2.2⟩

theorem combPairs_total {α : Type} :
    ∀ {l : List α} {a b : α}, a ∈ l → b ∈ l → a ≠ b →
      (a, b) ∈ combPairs l ∨ (b, a) ∈ combPairs l
  | [], a, b, ha, _, _ => absurd ha (by simp)
  | x :: xs, a, b, ha, hb, hab => by
    unfold combPairs
    rcases List.mem_cons.mp ha with rfl | ha'
    · have hb' : b ∈ xs := by
        rcases List.mem_cons.mp hb with rfl | h
        · exact absurd rfl hab
        · exact h
      exact Or.inl (List.mem_append.mpr (Or.inl (List.mem_map.mpr ⟨b, hb', rfl⟩)))
    · rcases List.mem_cons.mp hb with rfl | hb'
      · exact Or.inr (List.mem_append.mpr (Or.inl (List.mem_map.mpr ⟨a, ha', rfl⟩)))
      · rcases combPairs_total ha' hb' hab with h | h
        · exact Or.inl (List.mem_append.mpr (Or.inr h))
        · exact Or.inr (List.mem_append.mpr (Or.inr h))

theorem sig_eq_of_nearly_equals {a b : GenericBlock} {threshold : ℚ}
    (h : a.nearly_equals b threshold = some true) : a.signature = b.signature := by
  by_contra hne
  unfold GenericBlock.nearly_equals at h
  rw [if_neg hne] at h
  exact absurd h (by simp)

theorem reach_sig (edges : List (GenericBlock × GenericBlock))
    (hsig : ∀ a b : GenericBlock, Adj edges a b → a.signature = b.signature)
    {u v : GenericBlock} (h : Relation.ReflTransGen (Adj edges) u v) :
    u.signature = v.signature := by
  induction h with
  | refl => rfl
  | @tail b c hab hbc ih => exact ih.trans (hsig b c hbc)

/-- The node set of the graph built by `merge_similar_blocks` (Python sets are
duplicate-free). -/
def graphNodeSet (blocks_1 : List GenericBlock)
    (blocks_2 : Option (List GenericBlock)) : Finset GenericBlock :=
  (graphNodes blocks_1 blocks_2).dedup.toFinset

theorem mem_graphNodeSet {bs1 : List GenericBlock} {bs2 : Option (List GenericBlock)}
    {b : GenericBlock} : b ∈ graphNodeSet bs1 bs2 ↔ b ∈ graphNodes bs1 bs2 := by
  simp [graphNodeSet]

theorem edges_endpoints {bs1 : List GenericBlock} {bs2 : Option (List GenericBlock)}
    {threshold : ℚ} {edges : List (GenericBlock × GenericBlock)}
    (h : nearly_equal_pairs bs1 bs2 threshold = some edges) :
    ∀ e ∈ edges, e.1 ∈ graphNodeSet bs1 bs2 ∧ e.2 ∈ graphNodeSet bs1 bs2 := by
  intro e he
  have hcand := ((keepNearlyEqual_mem threshold h e).mp he).1
  cases bs2 with
  | none =>
    have h2 := mem_combPairs hcand
    exact ⟨mem_graphNodeSet.mpr h2.1, mem_graphNodeSet.mpr h2.2⟩
  | some l2 =>
    have h2 := mem_prodPairs.mp hcand
    by_cases hl2 : l2.isEmpty
    · rw [List.isEmpty_iff] at hl2
      subst hl2
      exact absurd h2.2 (by simp)
    · constructor
      · apply mem_graphNodeSet.mpr
        simp only [graphNodes]
        rw [if_neg hl2]
        exact List.mem_append.mpr (Or.inl h2.1)
      · apply mem_graphNodeSet.mpr
        simp only [graphNodes]
        rw [if_neg hl2]
        exact List.mem_append.mpr (Or.inr h2.2)

theorem component_sig_uniform (nodes : Finset GenericBlock)
    {threshold : ℚ} {edges : List (GenericBlock × GenericBlock)}
    (hE : ∀ e ∈ edges, e.1 ∈ nodes ∧ e.2 ∈ nodes)
    (hTrue : ∀ e ∈ edges, e.1.nearly_equals e.2 threshold = some true) :
    ∀ u ∈ nodes,
      ∀ b ∈ componentOf nodes edges u,
        ∀ c ∈ componentOf nodes edges u,
          b.signature = c.signature := by
  intro u hu b hb c hc
  have hAdj : ∀ a b : GenericBlock, Adj edges a b → a.signature = b.signature := by
    intro a b hab
    rcases hab with he | he
    · exact sig_eq_of_nearly_equals (hTrue (a, b) he)
    · exact (sig_eq_of_nearly_equals (hTrue (b, a) he)).symm
  have hrb := (mem_componentOf_iff _ edges u hu hE b).mp hb
  have hrc := (mem_componentOf_iff _ edges u hu hE c).mp hc
  exact (reach_sig edges hAdj hrb.2).symm.trans (reach_sig edges hAdj hrc.2)

theorem mem_componentList {nodesList : List GenericBlock}
    {edges : List (GenericBlock × GenericBlock)} {u v : GenericBlock} :
    v ∈ componentList nodesList edges u ↔
      v ∈ nodesList ∧ v ∈ componentOf nodesList.toFinset edges u := by
  simp [componentList, List.mem_filter]

theorem merge_component_isSome (l : List GenericBlock) (hne : l ≠ [])
    (hsig : ∀ b ∈ l, ∀ c ∈ l, b.signature = c.signature) :
    ∃ b, merge_component l = some b := by
  match l, hne with
  | [x], _ => exact ⟨x, rfl⟩
  | x :: y :: t, _ =>
    have hmb := merge_blocks_uniform (x :: y :: t) x.signature (by simp)
      (fun b hb => hsig b hb x (List.mem_cons_self _ _))
    exact ⟨_, hmb⟩

theorem mergeComponents_total :
    ∀ (comps : List (List GenericBlock)),
      (∀ comp ∈ comps, ∃ b, merge_component comp = some b) →
      ∃ out, mergeComponents comps = some out
  | [], _ => ⟨[], rfl⟩
  | comp :: rest, h => by
    rcases h comp (List.mem_cons_self _ _) with ⟨b, hb⟩
    rcases mergeComponents_total rest (fun c hc => h c (List.mem_cons_of_mem _ hc)) with
      ⟨out, hout⟩
    refine ⟨b :: out, ?_⟩
    unfold mergeComponents
    rw [hb, hout]

theorem mergeComponents_mem :
    ∀ {comps : List (List GenericBlock)} {out : List GenericBlock},
      mergeComponents comps = some out →
      ∀ b, b ∈ out ↔ ∃ comp ∈ comps, merge_component comp = some b
  | [], out, h, b => by
    injection h with h'
    simp [← h']
  | comp :: rest, out, h, b => by
    unfold mergeComponents at h
    cases hmc : merge_component comp with
    | none =>
      rw [hmc] at h
      exact absurd h (by simp)
    | some bc =>
      cases hrest : mergeComponents rest with
      | none =>
        rw [hmc, hrest] at h
        exact absurd h (by simp)
      | some out' =>
        rw [hmc, hrest] at h
        injection h with h'
        subst h'
        have hih := mergeComponents_mem hrest b
        constructor
        · intro hb
          rcases List.mem_cons.mp hb with rfl | hb'
          · exact ⟨comp, List.mem_cons_self _ _, hmc⟩
          · rcases hih.mp hb' with ⟨c, hc, hcb⟩
            exact ⟨c, List.mem_cons_of_mem _ hc, hcb⟩
        · rintro ⟨c, hc, hcb⟩
          rcases List.mem_cons.mp hc with rfl | hc'
          · rw [hmc] at hcb
            injection hcb with h2
            exact List.mem_cons.mpr (Or.inl h2.symm)
          · exact List.mem_cons_of_mem _ (hih.mpr ⟨c, hc', hcb⟩)

theorem merge_components_exists {blocks_1 : List GenericBlock}
    {blocks_2 : Option (List GenericBlock)} {edges : List (GenericBlock × GenericBlock)}
    (h : nearly_equal_pairs blocks_1 blocks_2 SIMILARITY_THRESHOLD = some edges) :
    ∃ merged, mergeComponents
        (((graphNodes blocks_1 blocks_2).dedup.map
          (fun u => componentList (graphNodes blocks_1 blocks_2).dedup edges u)).dedup) =
      some merged := by
  have hE := edges_endpoints h
  have hTrue : ∀ e ∈ edges, e.1.nearly_equals e.2 SIMILARITY_THRESHOLD = some true :=
    fun e he => ((keepNearlyEqual_mem _ h e).mp he).2
  apply mergeComponents_total
  intro comp hcomp
  rcases List.mem_map.mp (List.mem_dedup.mp hcomp) with ⟨u, hu, rfl⟩
  have huF : u ∈ graphNodeSet blocks_1 blocks_2 := List.mem_toFinset.mpr hu
  have humem : u ∈ componentList (graphNodes blocks_1 blocks_2).dedup edges u :=
    mem_componentList.mpr ⟨hu, mem_iterate_self _ edges u huF _⟩
  apply merge_component_isSome
  · exact List.ne_nil_of_mem humem
  · intro b hb c hc
    exact component_sig_uniform (graphNodeSet blocks_1 blocks_2) hE hTrue u huF
      b (mem_componentList.mp hb).2 c (mem_componentList.mp hc).2

theorem merge_similar_eval {blocks_1 : List GenericBlock}
    {blocks_2 : Option (List GenericBlock)} {edges : List (GenericBlock × GenericBlock)}
    {merged : List GenericBlock}
    (h : nearly_equal_pairs blocks_1 blocks_2 SIMILARITY_THRESHOLD = some edges)
    (hm : mergeComponents
        (((graphNodes blocks_1 blocks_2).dedup.map
          (fun u => componentList (graphNodes blocks_1 blocks_2).dedup edges u)).dedup) =
      some merged) :
    merge_similar_blocks blocks_1 blocks_2 = some merged.toFinset := by
  unfold merge_similar_blocks
  simp only [h]
  rw [hm]

theorem componentList_toFinset {bs1 : List GenericBlock} {bs2 : Option (List GenericBlock)}
    {edges : List (GenericBlock × GenericBlock)} {u : GenericBlock}
    (hu : u ∈ graphNodeSet bs1 bs2) :
    (componentList (graphNodes bs1 bs2).dedup edges u).toFinset =
      componentOf (graphNodeSet bs1 bs2) edges u := by
  ext v
  rw [List.mem_toFinset, mem_componentList]
  constructor
  · rintro ⟨-, hv⟩
    exact hv
  · intro hv
    refine ⟨?_, hv⟩
    have hsub := iterate_expand_subset (graphNodeSet bs1 bs2) edges u hu
      (graphNodeSet bs1 bs2).card
    exact List.mem_toFinset.mp (hsub hv)

theorem componentList_length {bs1 : List GenericBlock} {bs2 : Option (List GenericBlock)}
    {edges : List (GenericBlock × GenericBlock)} {u : GenericBlock}
    (hu : u ∈ graphNodeSet bs1 bs2) :
    (componentList (graphNodes bs1 bs2).dedup edges u).length =
      (componentOf (graphNodeSet bs1 bs2) edges u).card := by
  have hnd : (componentList (graphNodes bs1 bs2).dedup edges u).Nodup :=
    (List.nodup_dedup _).filter _
  rw [← componentList_toFinset hu, List.toFinset_card_of_nodup hnd]

theorem merge_component_char {bs1 : List GenericBlock} {bs2 : Option (List GenericBlock)}
    {edges : List (GenericBlock × GenericBlock)} {u : GenericBlock}
    (hu : u ∈ graphNodeSet bs1 bs2) (b : GenericBlock) :
    merge_component (componentList (graphNodes bs1 bs2).dedup edges u) = some b ↔
      (((componentOf (graphNodeSet bs1 bs2) edges u).card = 1 ∧ b = u) ∨
        (2 ≤ (componentOf (graphNodeSet bs1 bs2) edges u).card ∧
          merge_blocks (componentList (graphNodes bs1 bs2).dedup edges u) = some b)) := by
  have humem : u ∈ componentList (graphNodes bs1 bs2).dedup edges u :=
    mem_componentList.mpr ⟨List.mem_toFinset.mp hu, mem_iterate_self _ edges u hu _⟩
  have hlen := @componentList_length bs1 bs2 edges u hu
  rcases hshape : componentList (graphNodes bs1 bs2).dedup edges u with _ | ⟨x, _ | ⟨y, t⟩⟩
  · rw [hshape] at humem
    exact absurd humem (by simp)
  · rw [hshape] at humem hlen
    have hxu : x = u := (List.mem_singleton.mp humem).symm
    rw [hxu]
    have hcard1 : (componentOf (graphNodeSet bs1 bs2) edges u).card = 1 := by
      simpa using hlen.symm
    constructor
    · intro hmc
      exact Or.inl ⟨hcard1, (Option.some.inj hmc).symm⟩
    · rintro (⟨-, rfl⟩ | ⟨h2, -⟩)
      · rfl
      · omega
  · rw [hshape] at hlen
    have hcard2 : 2 ≤ (componentOf (graphNodeSet bs1 bs2) edges u).card := by
      rw [← hlen]
      simp
    constructor
    · intro hmc
      exact Or.inr ⟨hcard2, hmc⟩
    · rintro (⟨h1, -⟩ | ⟨-, hmb⟩)
      · omega
      · exact hmb

/-! ### Claim C9: the single-signature assertion is unreachable -/

/-- C9: whenever the pair-finding phase of `merge_similar_blocks` completes
(no `ZeroDivisionError`), every connected component of the near-equality graph
holds blocks of exactly one signature — edges only connect equal-signature
blocks because `nearly_equals` requires signature equality — and therefore the
per-component `merge_blocks` calls never trip the `assert len(signatures) == 1`:
`merge_similar_blocks` returns a result. -/
theorem merge_similar_blocks_no_assertion (blocks_1 : List GenericBlock)
    (blocks_2 : Option (List GenericBlock)) (edges : List (GenericBlock × GenericBlock))
    (h : nearly_equal_pairs blocks_1 blocks_2 SIMILARITY_THRESHOLD = some edges) :
    (∀ u ∈ graphNodeSet blocks_1 blocks_2,
        ∀ b ∈ componentOf (graphNodeSet blocks_1 blocks_2) edges u,
          ∀ c ∈ componentOf (graphNodeSet blocks_1 blocks_2) edges u,
            b.signature = c.signature) ∧
    ∃ out, merge_similar_blocks blocks_1 blocks_2 = some out := by
  refine ⟨component_sig_uniform _ (edges_endpoints h)
    (fun e he => ((keepNearlyEqual_mem _ h e).mp he).2), ?_⟩
  rcases merge_components_exists h with ⟨merged, hm⟩
  exact ⟨merged.toFinset, merge_similar_eval h hm⟩

/-- Witness for C9 on a concrete two-block, two-signature input. -/
theorem merge_similar_blocks_no_assertion_witness :
    nearly_equal_pairs [⟨1, 0, 0, 2, 2⟩, ⟨2, 10, 10, 2, 2⟩] none SIMILARITY_THRESHOLD =
        some [] ∧
      ∃ out, merge_similar_blocks [⟨1, 0, 0, 2, 2⟩, ⟨2, 10, 10, 2, 2⟩] none = some out :=
  ⟨by decide,
   (merge_similar_blocks_no_assertion [⟨1, 0, 0, 2, 2⟩, ⟨2, 10, 10, 2, 2⟩] none []
     (by decide)).2⟩

/-! ### Claim C7: `merge_similar_blocks` computes merged components -/

/-- C7 counterexample: two distinct zero-area blocks of the same signature.
The near-equality test divides by `max(area, area) = 0`, so
`merge_similar_blocks` raises `ZeroDivisionError` instead of returning the
component-merged set. -/
theorem merge_similar_blocks_counterexample :
    merge_similar_blocks [⟨1, 0, 0, 0, 5⟩, ⟨1, 0, 0, 0, 6⟩] none = none := by
  have hnone : (⟨1, 0, 0, 0, 5⟩ : GenericBlock).nearly_equals ⟨1, 0, 0, 0, 6⟩
      SIMILARITY_THRESHOLD = none := by
    unfold GenericBlock.nearly_equals GenericBlock.intersection_ppn
    rw [if_pos rfl]
    have hz : max (⟨1, 0, 0, 0, 5⟩ : GenericBlock).area
        (⟨1, 0, 0, 0, 6⟩ : GenericBlock).area = 0 := by
      norm_num [GenericBlock.area]
    rw [if_pos hz]
    rfl
  unfold merge_similar_blocks nearly_equal_pairs candidate_pairs
  simp [combPairs, keepNearlyEqual, hnone]

/-- C7 amended: whenever the near-equality tests all complete (no zero
max-area pair of equal signature, i.e. `nearly_equal_pairs` returns rather
than raising `ZeroDivisionError`), `merge_similar_blocks` works on the graph
whose nodes are all the input blocks, whose edges are exactly the near-equal
candidate pairs (all unordered pairs within `blocks_1` when `blocks_2` is
absent, the cross pairs otherwise), and returns the set holding, for each
connected component (= reflexive-transitive closure class of the adjacency
relation), the lone block when the component is a singleton and the
`merge_blocks` of the component's blocks otherwise. -/
theorem merge_similar_blocks_spec (blocks_1 : List GenericBlock)
    (blocks_2 : Option (List GenericBlock)) (edges : List (GenericBlock × GenericBlock))
    (h : nearly_equal_pairs blocks_1 blocks_2 SIMILARITY_THRESHOLD = some edges) :
    (∀ b : GenericBlock, b ∈ graphNodeSet blocks_1 blocks_2 ↔
        b ∈ blocks_1 ∨ b ∈ blocks_2.getD []) ∧
    (∀ p : GenericBlock × GenericBlock, p ∈ edges ↔
        p ∈ candidate_pairs blocks_1 blocks_2 ∧
          p.1.nearly_equals p.2 SIMILARITY_THRESHOLD = some true) ∧
    (∀ l2 : List GenericBlock, blocks_2 = some l2 →
        ∀ p : GenericBlock × GenericBlock,
          p ∈ candidate_pairs blocks_1 blocks_2 ↔ p.1 ∈ blocks_1 ∧ p.2 ∈ l2) ∧
    (blocks_2 = none →
        (∀ p ∈ candidate_pairs blocks_1 blocks_2, p.1 ∈ blocks_1 ∧ p.2 ∈ blocks_1) ∧
        ∀ a b : GenericBlock, a ∈ blocks_1 → b ∈ blocks_1 → a ≠ b →
          (a, b) ∈ candidate_pairs blocks_1 blocks_2 ∨
            (b, a) ∈ candidate_pairs blocks_1 blocks_2) ∧
    (∀ u ∈ graphNodeSet blocks_1 blocks_2, ∀ v : GenericBlock,
        v ∈ componentOf (graphNodeSet blocks_1 blocks_2) edges u ↔
          v ∈ graphNodeSet blocks_1 blocks_2 ∧ Relation.ReflTransGen (Adj edges) u v) ∧
    ∃ out, merge_similar_blocks blocks_1 blocks_2 = some out ∧
      ∀ b : GenericBlock, b ∈ out ↔
        ∃ u ∈ graphNodeSet blocks_1 blocks_2,
          ((componentOf (graphNodeSet blocks_1 blocks_2) edges u).card = 1 ∧ b = u) ∨
          (2 ≤ (componentOf (graphNodeSet blocks_1 blocks_2) edges u).card ∧
            merge_blocks (componentList (graphNodes blocks_1 blocks_2).dedup edges u) =
              some b) := by
  refine ⟨?_, fun p => keepNearlyEqual_mem _ h p, ?_, ?_,
    fun u hu v => mem_componentOf_iff _ edges u hu (edges_endpoints h) v, ?_⟩
  · intro b
    rw [mem_graphNodeSet]
    cases blocks_2 with
    | none => simp [graphNodes]
    | some l2 =>
      simp only [graphNodes]
      by_cases hl2 : l2.isEmpty
      · rw [if_pos hl2]
        rw [List.isEmpty_iff] at hl2
        subst hl2
        simp
      · rw [if_neg hl2]
        simp [List.mem_append]
  · rintro l2 rfl p
    exact mem_prodPairs
  · rintro rfl
    exact ⟨fun p hp => mem_combPairs hp, fun a b ha hb hab => combPairs_total ha hb hab⟩
  · rcases merge_components_exists h with ⟨merged, hm⟩
    refine ⟨merged.toFinset, merge_similar_eval h hm, ?_⟩
    intro b
    rw [List.mem_toFinset, mergeComponents_mem hm b]
    constructor
    · rintro ⟨comp, hcomp, hmc⟩
      rcases List.mem_map.mp (List.mem_dedup.mp hcomp) with ⟨u, hu, rfl⟩
      have huF : u ∈ graphNodeSet blocks_1 blocks_2 := List.mem_toFinset.mpr hu
      exact ⟨u, huF, (merge_component_char huF b).mp hmc⟩
    · rintro ⟨u, huF, hdisj⟩
      refine ⟨componentList (graphNodes blocks_1 blocks_2).dedup edges u, ?_,
        (merge_component_char huF b).mpr hdisj⟩
      exact List.mem_dedup.mpr (List.mem_map.mpr ⟨u, List.mem_toFinset.mp huF, rfl⟩)

/-- Witness for C7's amended theorem on a concrete two-block input with no
near-equal pair. -/
theorem merge_similar_blocks_spec_witness :
    nearly_equal_pairs [⟨3, 0, 0, 2, 2⟩, ⟨4, 10, 10, 2, 2⟩] none SIMILARITY_THRESHOLD =
        some [] ∧
      ∃ out, merge_similar_blocks [⟨3, 0, 0, 2, 2⟩, ⟨4, 10, 10, 2, 2⟩] none = some out ∧
        ∀ b : GenericBlock, b ∈ out ↔
          ∃ u ∈ graphNodeSet [⟨3, 0, 0, 2, 2⟩, ⟨4, 10, 10, 2, 2⟩] none,
            ((componentOf (graphNodeSet [⟨3, 0, 0, 2, 2⟩, ⟨4, 10, 10, 2, 2⟩] none)
                [] u).card = 1 ∧ b = u) ∨
            (2 ≤ (componentOf (graphNodeSet [⟨3, 0, 0, 2, 2⟩, ⟨4, 10, 10, 2, 2⟩] none)
                [] u).card ∧
              merge_blocks (componentList
                (graphNodes [⟨3, 0, 0, 2, 2⟩, ⟨4, 10, 10, 2, 2⟩] none).dedup [] u) =
                some b) :=
  ⟨by decide,
   (merge_similar_blocks_spec [⟨3, 0, 0, 2, 2⟩, ⟨4, 10, 10, 2, 2⟩] none []
     (by decide)).2.2.2.2.2⟩

end Pixybattle
